import Mathlib

/-!
Verification of the name-resolution and grading-decision engine of the
NFL-Group-1st-TD pool application.

The Python sources embedded here (shallowly, over `List Char` for strings and
`ℚ` for Python floats) are:
  * `league_webapp/app/fuzzy_matcher.py`   — class `NameMatcher`
  * `league_webapp/app/models.py`          — `Pick.calculate_payout`
  * `league_webapp/app/services/grading_service.py` — `GradingService._grade_single_pick`
  * `league_webapp/app/services/match_review_service.py` — `MatchReviewService`

Modelling conventions:
  * Python `str` is modelled as `List Char`; `float` as `ℚ` (the arithmetic on
    all code paths relevant to the theorems below is exact in both).
  * ASCII case mapping models `str.lower()`; the whitespace set models the
    ASCII behaviour of `str.strip()` and of `\s` in `re.sub`.
  * The human-readable reason strings produced with f-strings are modelled by
    the constant part of the format string (their interpolated parts play no
    role in any property below).
  * `difflib.SequenceMatcher.ratio()` (standard library, not repository code)
    is modelled by its documented specification: total size of the matching
    blocks obtained by recursively taking the longest matching block
    (earliest in `a`, then in `b`), scaled by `2/(len(a)+len(b))`.  Junk
    heuristics ("autojunk") only act on strings of length ≥ 200 and are not
    modelled.
  * Python `set(...)` iteration order is unspecified; deduplication is
    modelled keeping first occurrences.  No property below depends on the
    order.
  * Database rows are modelled as structures; the columns that no modelled
    method reads or writes (user/game foreign keys, submission timestamps,
    player position, ...) are omitted.  Timestamps are abstract (`Nat`),
    supplied as a `now` argument where the code calls `datetime.utcnow()`.
  * Python expressions that can raise (`ZeroDivisionError` in
    `calculate_payout`, attribute access on a missing relationship) are
    modelled with `Option`: `none` is a raised exception.
-/

abbrev Str := List Char

/-! ### Character-level model of `str.lower`, whitespace, `str.strip`, `str.split` -/

/-- ASCII case-mapping table used to model Python `str.lower()`. -/
def lowerPairs : List (Char × Char) :=
  [('A', 'a'), ('B', 'b'), ('C', 'c'), ('D', 'd'), ('E', 'e'), ('F', 'f'),
   ('G', 'g'), ('H', 'h'), ('I', 'i'), ('J', 'j'), ('K', 'k'), ('L', 'l'),
   ('M', 'm'), ('N', 'n'), ('O', 'o'), ('P', 'p'), ('Q', 'q'), ('R', 'r'),
   ('S', 's'), ('T', 't'), ('U', 'u'), ('V', 'v'), ('W', 'w'), ('X', 'x'),
   ('Y', 'y'), ('Z', 'z')]

/-- Model of Python `str.lower()` on one character (ASCII). -/
def pyLower (c : Char) : Char :=
  match lowerPairs.find? (fun p => p.1 == c) with
  | some p => p.2
  | none => c

/-- The ASCII whitespace characters: what `str.strip()` strips and `\s`
matches on the inputs modelled here. -/
def isPySpace (c : Char) : Bool :=
  c == ' ' || c == '\t' || c == '\n' || c == '\r' || c == '\x0b' || c == '\x0c'

/-- Model of Python `str.strip()`: drop whitespace from both ends. -/
def pyStrip (l : Str) : Str :=
  (l.dropWhile isPySpace).rdropWhile isPySpace

/-- Worker for `collapseWS`; the flag records whether the previous character
was whitespace (i.e. whether we are inside a run that already emitted its
single space). -/
def collapseAux : Bool → Str → Str
  | _, [] => []
  | inRun, c :: rest =>
    if isPySpace c then
      if inRun then collapseAux true rest else ' ' :: collapseAux true rest
    else c :: collapseAux false rest

/-- Model of `re.sub(r"\s+", " ", name)`: every maximal whitespace run
becomes a single space. -/
def collapseWS (l : Str) : Str := collapseAux false l

/-- Worker for `pySplit`; `acc` is the current word, reversed. -/
def splitAux : Str → Str → List Str
  | [], acc => if acc = [] then [] else [acc.reverse]
  | c :: rest, acc =>
    if isPySpace c then
      if acc = [] then splitAux rest [] else acc.reverse :: splitAux rest []
    else splitAux rest (c :: acc)

/-- Model of Python `str.split()` (no separator): split on whitespace runs,
discarding empty pieces. -/
def pySplit (l : Str) : List Str := splitAux l []

/-! ### `NameMatcher.normalize_name` and `tokenize_name` -/

/-- Embedding of `NameMatcher.normalize_name`: lowercase, strip, remove periods, remove
commas, collapse internal whitespace (in the source's order). -/
def normalize_name (name : Str) : Str :=
  if name = [] then []
  else
    collapseWS
      (((pyStrip (name.map pyLower)).filter (fun c => c ≠ '.')).filter
        (fun c => c ≠ ','))

/-- Embedding of `NameMatcher.tokenize_name`: split the normalized name into words. -/
def tokenize_name (name : Str) : List Str :=
  pySplit (normalize_name name)

/-! ### Nickname expansion -/

/-- Embedding of `NameMatcher.NICKNAME_MAP`.  The source dict literal lists the key
`"hollywood"` twice; as in Python, the later value wins and the key keeps its
first position. -/
def NICKNAME_MAP : List (Str × Str) :=
  [("chris".toList, "christopher".toList),
   ("mike".toList, "michael".toList),
   ("matt".toList, "matthew".toList),
   ("dave".toList, "david".toList),
   ("rob".toList, "robert".toList),
   ("bob".toList, "robert".toList),
   ("dan".toList, "daniel".toList),
   ("andy".toList, "andrew".toList),
   ("tony".toList, "anthony".toList),
   ("joe".toList, "joseph".toList),
   ("jim".toList, "james".toList),
   ("tom".toList, "thomas".toList),
   ("will".toList, "william".toList),
   ("bill".toList, "william".toList),
   ("tim".toList, "timothy".toList),
   ("gabe".toList, "gabriel".toList),
   ("aj".toList, "a.j.".toList),
   ("cj".toList, "c.j.".toList),
   ("dj".toList, "d.j.".toList),
   ("jj".toList, "j.j.".toList),
   ("tj".toList, "t.j.".toList),
   ("jamo".toList, "jameson".toList),
   ("cmc".toList, "christian mccaffrey".toList),
   ("dk".toList, "decaf".toList),
   ("dhop".toList, "deandre hopkins".toList),
   ("scary terry".toList, "terry mclaurin".toList),
   ("hollywood".toList, "marqise brown".toList),
   ("flash".toList, "josh gordon".toList),
   ("megatron".toList, "calvin johnson".toList),
   ("beast mode".toList, "marshawn lynch".toList),
   ("arsb".toList, "amon-ra st brown".toList),
   ("sun god".toList, "amon-ra st brown".toList)]

/-- Keep the first occurrence of each element (model of `list(set(...))`,
whose order Python does not specify). -/
def dedupAux : List Str → List Str → List Str
  | [], _ => []
  | x :: xs, seen => if x ∈ seen then dedupAux xs seen else x :: dedupAux xs (x :: seen)

def pyDedup (l : List Str) : List Str := dedupAux l []

/-- Replace the token at position `i` by `repl` (model of
`tokens.copy(); expanded_tokens[i] = ...`). -/
def setTok (tokens : List Str) (i : Nat) (repl : Str) : List Str :=
  tokens.set i repl

/-- Join tokens with single spaces (model of `' '.join(tokens)`). -/
def joinSp : List Str → Str
  | [] => []
  | [t] => t
  | t :: rest => t ++ ' ' :: joinSp rest

/-- The variations contributed by one token position: the forward expansion
when the token is a known nickname, then one variation per map entry whose
full name equals the token. -/
def tokenVariations (tokens : List Str) (i : Nat) (token : Str) : List Str :=
  (match NICKNAME_MAP.find? (fun p => p.1 == token) with
   | some p => [joinSp (setTok tokens i p.2)]
   | none => []) ++
  (NICKNAME_MAP.filter (fun p => p.2 == token)).map
    (fun p => joinSp (setTok tokens i p.1))

def variationsLoop (tokens : List Str) : Nat → List Str → List Str
  | _, [] => []
  | i, token :: rest => tokenVariations tokens i token ++ variationsLoop tokens (i + 1) rest

/-- Embedding of `NameMatcher.expand_nicknames`: the normalized name plus every
one-token nickname expansion (both directions), deduplicated. -/
def expand_nicknames (name : Str) : List Str :=
  let normalized := normalize_name name
  let tokens := pySplit normalized
  pyDedup (normalized :: variationsLoop tokens 0 tokens)

/-! ### `NameMatcher.levenshtein_distance` (dynamic-programming embedding) -/

/-- The inner `for j, c2 in enumerate(s2)` loop of
`NameMatcher.levenshtein_distance`.  `prev` is the suffix of `previous_row`
from index `j`; `last` is the last element appended to `current_row`. -/
def levInner (c1 : Char) : Str → List Nat → Nat → List Nat
  | c2 :: rest, p0 :: p1 :: ptail, last =>
    let v := min (min (p1 + 1) (last + 1)) (p0 + if c1 = c2 then 0 else 1)
    v :: levInner c1 rest (p1 :: ptail) v
  | _, _, _ => []

/-- The outer `for i, c1 in enumerate(s1)` loop; `i + 1` heads each new
`current_row`. -/
def levOuter (s2 : Str) : Str → List Nat → Nat → List Nat
  | [], prev, _ => prev
  | c1 :: rest, prev, i =>
    levOuter s2 rest ((i + 1) :: levInner c1 s2 prev (i + 1)) (i + 1)

/-- Embedding of `NameMatcher.levenshtein_distance`.  The source first swaps the arguments
so that `s1` is the longer string, then returns `len(s1)` when `s2` is empty,
else runs the row dynamic programming and returns the last cell. -/
def levenshtein_distance (s1 s2 : Str) : Nat :=
  if s1.length < s2.length then
    if s1.length = 0 then s2.length
    else (levOuter s1 s2 (List.range (s1.length + 1)) 0).getLastD 0
  else
    if s2.length = 0 then s1.length
    else (levOuter s2 s1 (List.range (s2.length + 1)) 0).getLastD 0

/-- Embedding of `NameMatcher.levenshtein_similarity`: `0` when either input is empty,
else `1 - distance / max(len, len)`.  (The `max_len == 0` test in the source
is unreachable and kept for faithfulness.) -/
def levenshtein_similarity (s1 s2 : Str) : ℚ :=
  if s1 = [] ∨ s2 = [] then 0
  else
    let d := levenshtein_distance s1 s2
    let maxLen := max s1.length s2.length
    if maxLen = 0 then 1 else 1 - (d : ℚ) / (maxLen : ℚ)

/-! ### Model of `difflib.SequenceMatcher(None, a, b).ratio()` -/

/-- Length of the longest common prefix of two strings. -/
def commonRun : Str → Str → Nat
  | x :: xs, y :: ys => if x = y then commonRun xs ys + 1 else 0
  | _, _ => 0

/-- The longest matching block of `a` and `b` (breaking ties towards the
earliest start in `a`, then in `b`, as `find_longest_match` documents). -/
def longestBlock (a b : Str) : Nat × Nat × Nat :=
  (List.range a.length).foldl
    (fun best i =>
      (List.range b.length).foldl
        (fun best j =>
          let k := commonRun (a.drop i) (b.drop j)
          if best.2.2 < k then (i, j, k) else best)
        best)
    (0, 0, 0)

/-- Total size of the matching blocks: recursively split around the longest
matching block.  The fuel argument only bounds the recursion depth; any value
above `min (len a) (len b)` is enough. -/
def matchTotal : Nat → Str → Str → Nat
  | 0, _, _ => 0
  | fuel + 1, a, b =>
    let (i, j, k) := longestBlock a b
    if k = 0 then 0
    else
      matchTotal fuel (a.take i) (b.take j) + k +
        matchTotal fuel (a.drop (i + k)) (b.drop (j + k))

/-- Model of `difflib.SequenceMatcher(None, a, b).ratio()`: `2M/T` where `M` is the
total size of the matching blocks and `T` the total length (`1` when both
are empty). -/
def seqRatio (a b : Str) : ℚ :=
  let t := a.length + b.length
  if t = 0 then 1
  else 2 * (matchTotal (t + 1) a b : ℚ) / (t : ℚ)

/-! ### `NameMatcher.token_similarity` -/

/-- Distinct-token count helper: Python `set(tokens)` is modelled by the
first-occurrence deduplication `pyDedup`. -/
def tokenSet (tokens : List Str) : List Str := pyDedup tokens

/-- Embedding of `NameMatcher.token_similarity`. -/
def token_similarity (name1 name2 : Str) : ℚ :=
  let tokens1 := tokenize_name name1
  let tokens2 := tokenize_name name2
  if tokens1 = [] ∨ tokens2 = [] then 0
  else if tokens1.length = 1 ∧ 1 < tokens2.length ∧
      tokens1.headD [] = tokens2.getLastD [] then 0.95
  else if tokens1.length = 1 ∧ 1 < tokens2.length ∧
      tokens1.headD [] = tokens2.headD [] then 0.75
  else if tokens2.length = 1 ∧ 1 < tokens1.length ∧
      tokens2.headD [] = tokens1.getLastD [] then 0.95
  else if tokens2.length = 1 ∧ 1 < tokens1.length ∧
      tokens2.headD [] = tokens1.headD [] then 0.75
  else
    let set1 := tokenSet tokens1
    let set2 := tokenSet tokens2
    let inter := set1.filter (fun t => t ∈ tokens2)
    if inter = [] then 0
    else
      let minTokens := min set1.length set2.length
      let maxTokens := max set1.length set2.length
      let baseScore : ℚ :=
        if 0 < minTokens then (inter.length : ℚ) / (minTokens : ℚ) else 0
      let sizePenalty : ℚ :=
        if 0 < maxTokens then
          1 - ((tokens1.length : ℤ) - (tokens2.length : ℤ)).natAbs / (maxTokens : ℚ)
        else 0
      let jaccard := baseScore * 0.80 + sizePenalty * 0.20
      if tokens1.getLastD [] = tokens2.getLastD [] then min 1 (jaccard * 1.15)
      else jaccard

/-! ### `NameMatcher.calculate_match_score` -/

/-- The nickname-variation check inside `calculate_match_score` for one pair
of variations: exact equality, else a single-token variation matching the
first or last token of the other side's variation. -/
def nickPairCheck (pick_var scorer_var : Str) : Option String :=
  if pick_var = scorer_var then some "Nickname match"
  else
    let pvTokens := tokenize_name pick_var
    let svTokens := tokenize_name scorer_var
    if pvTokens.length = 1 ∧ 1 < svTokens.length ∧
        (pvTokens.headD [] = svTokens.getLastD [] ∨ pvTokens.headD [] = svTokens.headD []) then
      some "Nickname expansion match"
    else if svTokens.length = 1 ∧ 1 < pvTokens.length ∧
        (svTokens.headD [] = pvTokens.getLastD [] ∨ svTokens.headD [] = pvTokens.headD []) then
      some "Nickname expansion match"
    else none

def nickInner (pick_var : Str) : List Str → Option String
  | [] => none
  | sv :: rest =>
    match nickPairCheck pick_var sv with
    | some r => some r
    | none => nickInner pick_var rest

def nickLoop : List Str → List Str → Option String
  | [], _ => none
  | pv :: rest, svs =>
    match nickInner pv svs with
    | some r => some r
    | none => nickLoop rest svs

/-- The initials comparison loop of `calculate_match_score`: zipped token
pairs where a token of length ≤ 2 must be an initial of the other. -/
def initialsMatch : List (Str × Str) → Bool
  | [] => true
  | (pTok, sTok) :: rest =>
    if pTok.length ≤ 2 then
      match sTok.head?, pTok.head? with
      | some s0, some p0 => if s0 = p0 then initialsMatch rest else false
      | _, _ => false
    else if sTok.length ≤ 2 then
      match pTok.head?, sTok.head? with
      | some p0, some s0 => if p0 = s0 then initialsMatch rest else false
      | _, _ => false
    else if pTok = sTok then initialsMatch rest
    else false

/-- Embedding of `NameMatcher.calculate_match_score`: the ordered cascade of matching
rules, returning a score in program order together with (the constant part
of) the reason string. -/
def calculate_match_score (pick_name scorer_name : Str) : ℚ × String :=
  if pick_name = scorer_name then (1, "Exact match")
  else
    let norm_pick := normalize_name pick_name
    let norm_scorer := normalize_name scorer_name
    if norm_pick = norm_scorer then (0.95, "Case-insensitive exact match")
    else
      let pick_variations := expand_nicknames pick_name
      let scorer_variations := expand_nicknames scorer_name
      match nickLoop pick_variations scorer_variations with
      | some reason => (0.90, reason)
      | none =>
        let token_sim := token_similarity pick_name scorer_name
        let pick_tokens := tokenize_name pick_name
        let scorer_tokens := tokenize_name scorer_name
        if pick_tokens.length = 2 ∧ scorer_tokens.length = 2 ∧
            normalize_name (pick_tokens.getLastD [] ++ ' ' :: pick_tokens.headD []) =
              norm_scorer then
          (0.92, "Name order variation")
        else
          let lev_sim := levenshtein_similarity norm_pick norm_scorer
          let seq_sim := seqRatio norm_pick norm_scorer
          let has_initial_pick := pick_tokens.any
            (fun t => t.length ≤ 2 && !t.contains '.')
          let has_initial_scorer := scorer_tokens.any
            (fun t => t.length ≤ 2 && !t.contains '.')
          if (has_initial_pick || has_initial_scorer) ∧
              pick_tokens.length = scorer_tokens.length ∧
              initialsMatch (pick_tokens.zip scorer_tokens) then
            (0.88, "Initial match")
          else
            let combined := token_sim * 0.55 + lev_sim * 0.25 + seq_sim * 0.20
            let combined :=
              if 0.90 ≤ lev_sim ∧ combined < 0.85 then max combined (lev_sim * 0.85)
              else combined
            if 0.85 ≤ combined then (combined, "High similarity")
            else if 0.70 ≤ combined then (combined, "Medium similarity")
            else (combined, "Low similarity")

/-! ### `NameMatcher.find_best_match` -/

/-- The threshold configuration of `NameMatcher.__init__`. -/
structure NameMatcher where
  exact_threshold : ℚ := 1
  high_confidence_threshold : ℚ := 0.85
  medium_confidence_threshold : ℚ := 0.70
  auto_accept_threshold : ℚ := 0.85
deriving DecidableEq

/-- A `NameMatcher()` built with all defaults. -/
def defaultMatcher : NameMatcher := {}

/-- The result dictionary of `find_best_match`.  `matched_name` is `none`
when the loop never replaced the initial `best_match = None`. -/
structure MatchResult where
  matched_name : Option Str
  score : ℚ
  confidence : String
  reason : String
  auto_accept : Bool
  pick_name : Str
deriving DecidableEq

/-- The `for scorer_name in scorer_names` loop of `find_best_match`:
a candidate replaces the running best only when its score is strictly
higher. -/
def bestLoop (pick_name : Str) :
    List Str → ℚ → Option Str → String → ℚ × Option Str × String
  | [], bs, bm, br => (bs, bm, br)
  | c :: rest, bs, bm, br =>
    let sr := calculate_match_score pick_name c
    if bs < sr.1 then bestLoop pick_name rest sr.1 (some c) sr.2
    else bestLoop pick_name rest bs bm br

/-- The confidence tier of a score under the matcher's thresholds. -/
def confidenceOf (m : NameMatcher) (score : ℚ) : String :=
  if m.exact_threshold ≤ score then "exact"
  else if m.high_confidence_threshold ≤ score then "high"
  else if m.medium_confidence_threshold ≤ score then "medium"
  else "low"

/-- Embedding of `NameMatcher.find_best_match`. -/
def find_best_match (m : NameMatcher) (pick_name : Str) (scorer_names : List Str)
    (min_score : ℚ) : Option MatchResult :=
  if pick_name = [] ∨ scorer_names = [] then none
  else
    let t := bestLoop pick_name scorer_names 0 none ""
    if t.1 < min_score then none
    else
      some
        { matched_name := t.2.1
          score := t.1
          confidence := confidenceOf m t.1
          reason := t.2.2
          auto_accept := decide (m.auto_accept_threshold ≤ t.1)
          pick_name := pick_name }

/-! ### `Pick.calculate_payout` (`models.py`) -/

/-- The grading-relevant columns of the `picks` table. -/
structure Pick where
  id : Nat
  player_name : Str
  odds : ℤ
  stake : ℚ
  result : String
  payout : ℚ
  graded_at : Option Nat
deriving DecidableEq

/-- Embedding of `Pick.calculate_payout`.  `none` models the `ZeroDivisionError` raised
when `result == 'W'`, `odds ≤ 0` and `abs(odds) / 100 == 0` (i.e.
`odds = 0`). -/
def calculate_payout (p : Pick) : Option ℚ :=
  if p.result = "W" then
    if 0 < p.odds then some (p.stake * ((p.odds : ℚ) / 100))
    else
      let divisor : ℚ := (p.odds.natAbs : ℚ) / 100
      if divisor = 0 then none else some (p.stake / divisor)
  else if p.result = "L" then some (-p.stake)
  else some 0

/-! ### `GradingService._grade_single_pick` -/

/-- The audit row created for one name-resolution attempt
(`match_decisions` table). -/
structure MatchDecision where
  id : Nat
  pick_id : Nat
  pick_name : Str
  scorer_name : Option Str
  match_score : ℚ
  confidence : String
  match_reason : String
  auto_accepted : Bool
  needs_review : Bool
  manual_decision : Option String
  reviewed_by : Option Str
  reviewed_at : Option Nat
  created_at : Nat
deriving DecidableEq

/-- The four counters returned by `_grade_single_pick`. -/
structure GradeCounts where
  graded : Nat
  won : Nat
  lost : Nat
  needs_review : Nat
deriving DecidableEq

/-- Threshold configuration of `GradingService.__init__`: the matcher is
built with the default thresholds except `auto_accept_threshold`. -/
structure GradingService where
  auto_accept_threshold : ℚ := 0.85
  medium_threshold : ℚ := 0.70

def GradingService.matcher (svc : GradingService) : NameMatcher :=
  { auto_accept_threshold := svc.auto_accept_threshold }

/-- Python `matched_scorer or match_result['matched_name']`: `None` and the
empty string are falsy. -/
def orStr (a : Option Str) (b : Option Str) : Option Str :=
  match a with
  | some s => if s = [] then b else some s
  | none => b

/-- Embedding of `GradingService._grade_single_pick`.  Returns the mutated pick, the
`MatchDecision` added to the session (if any) and the counter dict; `none`
models an uncaught `ZeroDivisionError` from `calculate_payout`. -/
def grade_single_pick (svc : GradingService) (pick : Pick) (scorer_names : List Str)
    (matched_scorer : Option Str) (decision_id : Nat) (now : Nat) :
    Option (Pick × Option MatchDecision × GradeCounts) :=
  match find_best_match svc.matcher (pyStrip pick.player_name) scorer_names 0 with
  | some mr =>
    if svc.medium_threshold ≤ mr.score then
      let d : MatchDecision :=
        { id := decision_id
          pick_id := pick.id
          pick_name := pyStrip pick.player_name
          scorer_name := orStr matched_scorer mr.matched_name
          match_score := mr.score
          confidence := mr.confidence
          match_reason := mr.reason
          auto_accepted := mr.auto_accept
          needs_review := !mr.auto_accept
          manual_decision := none
          reviewed_by := none
          reviewed_at := none
          created_at := now }
      if mr.auto_accept then
        let pickW := { pick with result := "W" }
        match calculate_payout pickW with
        | none => none
        | some pay =>
          some ({ pickW with payout := pay, graded_at := some now }, some d,
            ⟨1, 1, 0, 0⟩)
      else
        some (pick, some d, ⟨0, 0, 0, 1⟩)
    else
      some ({ pick with result := "L", payout := -pick.stake, graded_at := some now },
        none, ⟨1, 0, 1, 0⟩)
  | none =>
    some ({ pick with result := "L", payout := -pick.stake, graded_at := some now },
      none, ⟨1, 0, 1, 0⟩)

/-! ### `MatchReviewService` (`match_review_service.py`) -/

/-- The database rows visible to the review service. -/
structure Db where
  decisions : List MatchDecision
  picks : List Pick
deriving DecidableEq

def Db.findDecision (db : Db) (match_id : Nat) : Option MatchDecision :=
  db.decisions.find? (fun d => d.id == match_id)

def Db.findPick (db : Db) (pick_id : Nat) : Option Pick :=
  db.picks.find? (fun p => p.id == pick_id)

/-- In-place mutation of a decision row, modelled by replacing every row
with the same id. -/
def Db.putDecision (db : Db) (d : MatchDecision) : Db :=
  { db with decisions := db.decisions.map (fun x => if x.id == d.id then d else x) }

/-- In-place mutation of a pick row. -/
def Db.putPick (db : Db) (p : Pick) : Db :=
  { db with picks := db.picks.map (fun x => if x.id == p.id then p else x) }

/-- Python truthiness of `match.manual_decision` (an optional string). -/
def manualDecisionFalsy : Option String → Bool
  | none => true
  | some s => s = ""

/-- Embedding of `MatchReviewService.approve_match`.  Returns the `(success, message)`
pair and the mutated database; `none` models an uncaught exception (broken
pick relationship, or `ZeroDivisionError` from `calculate_payout`). -/
def approve_match (db : Db) (match_id : Nat) (reviewed_by : Str) (now : Nat) :
    Option ((Bool × String) × Db) :=
  match db.findDecision match_id with
  | none => some ((false, "Match not found"), db)
  | some m =>
    match db.findPick m.pick_id with
    | none => none
    | some pick =>
      let m' := { m with
        manual_decision := some "approved"
        reviewed_by := some reviewed_by
        reviewed_at := some now
        needs_review := false }
      let pickW := { pick with result := "W" }
      match calculate_payout pickW with
      | none => none
      | some pay =>
        some ((true, "Match approved"),
          (db.putDecision m').putPick { pickW with payout := pay, graded_at := some now })

/-- Embedding of `MatchReviewService.reject_match`. -/
def reject_match (db : Db) (match_id : Nat) (reviewed_by : Str) (now : Nat) :
    Option ((Bool × String) × Db) :=
  match db.findDecision match_id with
  | none => some ((false, "Match not found"), db)
  | some m =>
    match db.findPick m.pick_id with
    | none => none
    | some pick =>
      let m' := { m with
        manual_decision := some "rejected"
        reviewed_by := some reviewed_by
        reviewed_at := some now
        needs_review := false }
      some ((true, "Match rejected"),
        (db.putDecision m').putPick
          { pick with result := "L", payout := -pick.stake, graded_at := some now })

/-- Embedding of `MatchReviewService.revert_match`. -/
def revert_match (db : Db) (match_id : Nat) : Option ((Bool × String) × Db) :=
  match db.findDecision match_id with
  | none => some ((false, "Match not found"), db)
  | some m =>
    if manualDecisionFalsy m.manual_decision then
      some ((false, "Can only revert manually reviewed matches"), db)
    else
      match db.findPick m.pick_id with
      | none => none
      | some pick =>
        let m' := { m with
          manual_decision := none
          reviewed_by := none
          reviewed_at := none
          needs_review := true }
        some ((true, "Reverted match back to pending review"),
          (db.putDecision m').putPick
            { pick with result := "Pending", payout := 0, graded_at := none })

/-! ### Reference edit distance

`editDistance` is the textbook unit-cost Levenshtein recurrence (insert,
delete, substitute each cost 1).  The theorems below prove that the row
dynamic programming `levenshtein_distance` computes exactly this function. -/

def editDistance : Str → Str → Nat
  | [], ys => ys.length
  | _ :: xs, [] => xs.length + 1
  | x :: xs, y :: ys =>
    min (min (editDistance xs (y :: ys) + 1) (editDistance (x :: xs) ys + 1))
      (editDistance xs ys + if x = y then 0 else 1)
termination_by a b => a.length + b.length
decreasing_by all_goals simp_arith

@[simp] theorem editDistance_nil_left (ys : Str) : editDistance [] ys = ys.length := by
  cases ys <;> simp [editDistance]

@[simp] theorem editDistance_nil_right (xs : Str) : editDistance xs [] = xs.length := by
  cases xs <;> simp [editDistance]

theorem editDistance_cons_cons (x y : Char) (xs ys : Str) :
    editDistance (x :: xs) (y :: ys) =
      min (min (editDistance xs (y :: ys) + 1) (editDistance (x :: xs) ys + 1))
        (editDistance xs ys + if x = y then 0 else 1) := by
  rw [editDistance]

theorem editDistance_comm : ∀ (a b : Str), editDistance a b = editDistance b a
  | [], ys => by simp
  | _ :: _, [] => by simp
  | x :: xs, y :: ys => by
    rw [editDistance_cons_cons, editDistance_cons_cons,
      editDistance_comm xs (y :: ys), editDistance_comm (x :: xs) ys,
      editDistance_comm xs ys]
    have hc : (if x = y then 0 else 1) = (if y = x then 0 else 1) := by
      by_cases h : x = y
      · simp [h]
      · simp [h, Ne.symm h]
    rw [hc]
    omega
termination_by a b => a.length + b.length

set_option maxHeartbeats 1600000 in
theorem editDistance_append (x y : Char) : ∀ (xs ys : Str),
    editDistance (xs ++ [x]) (ys ++ [y]) =
      min (min (editDistance xs (ys ++ [y]) + 1) (editDistance (xs ++ [x]) ys + 1))
        (editDistance xs ys + if x = y then 0 else 1)
  | [], [] => by
    simp only [List.nil_append, editDistance_cons_cons, editDistance_nil_left,
      editDistance_nil_right, List.length_cons, List.length_nil]
  | [], z :: zs => by
    have ih := editDistance_append x y [] zs
    simp only [List.nil_append] at ih
    simp only [List.nil_append, List.cons_append]
    rw [editDistance_cons_cons x z [] (zs ++ [y]), ih,
      editDistance_cons_cons x z [] zs]
    simp only [editDistance_nil_left, List.length_cons, List.length_append,
      List.length_nil]
    omega
  | w :: ws, [] => by
    have ih := editDistance_append x y ws []
    simp only [List.nil_append] at ih
    simp only [List.nil_append, List.cons_append]
    rw [editDistance_cons_cons w y (ws ++ [x]) [], ih,
      editDistance_cons_cons w y ws []]
    simp only [editDistance_nil_right, List.length_cons, List.length_append,
      List.length_nil]
    omega
  | w :: ws, z :: zs => by
    have ih1 := editDistance_append x y ws (z :: zs)
    have ih2 := editDistance_append x y (w :: ws) zs
    have ih3 := editDistance_append x y ws zs
    simp only [List.cons_append] at ih1 ih2 ⊢
    rw [editDistance_cons_cons w z (ws ++ [x]) (zs ++ [y]), ih1, ih2, ih3,
      editDistance_cons_cons w z ws (zs ++ [y]),
      editDistance_cons_cons w z (ws ++ [x]) zs,
      editDistance_cons_cons w z ws zs]
    generalize editDistance ws (z :: (zs ++ [y])) = A
    generalize editDistance (ws ++ [x]) (z :: zs) = B
    generalize editDistance ws (z :: zs) = C
    generalize editDistance (w :: ws) (zs ++ [y]) = D
    generalize editDistance (w :: (ws ++ [x])) zs = E
    generalize editDistance (w :: ws) zs = F
    generalize editDistance ws (zs ++ [y]) = G
    generalize editDistance (ws ++ [x]) zs = H
    generalize editDistance ws zs = I
    generalize (if x = y then 0 else 1) = cxy
    generalize (if w = z then 0 else 1) = cwz
    refine le_antisymm ?_ ?_ <;>
      simp only [le_min_iff, min_le_iff] <;> omega
termination_by xs ys => xs.length + ys.length

theorem editDistance_reverse : ∀ (a b : Str),
    editDistance a.reverse b.reverse = editDistance a b
  | [], ys => by simp
  | _ :: _, [] => by simp
  | x :: xs, y :: ys => by
    rw [List.reverse_cons, List.reverse_cons,
      editDistance_append x y xs.reverse ys.reverse,
      ← List.reverse_cons y ys, ← List.reverse_cons x xs,
      editDistance_reverse xs (y :: ys), editDistance_reverse (x :: xs) ys,
      editDistance_reverse xs ys, editDistance_cons_cons x y xs ys]
termination_by a b => a.length + b.length

/-! ### The row dynamic programming computes `editDistance`

`rowFrom A B t` is the contents of `previous_row` at the point where the
reversed prefix of the row string is `A`, the reversed prefix of consumed
columns is `B` and the remaining columns are `t`. -/

def rowAux (A : Str) : Str → Str → List Nat
  | B, [] => (fun _ => []) B
  | B, c :: t => editDistance A (c :: B) :: rowAux A (c :: B) t

def rowFrom (A B t : Str) : List Nat := editDistance A B :: rowAux A B t

theorem levInner_spec (c1 : Char) :
    ∀ (t A B : Str),
      levInner c1 t (rowFrom A B t) (editDistance (c1 :: A) B) =
        rowAux (c1 :: A) B t
  | [], _, _ => by simp [rowFrom, rowAux, levInner]
  | c2 :: t', A, B => by
    have ih := levInner_spec c1 t' A (c2 :: B)
    simp only [rowFrom, rowAux] at ih ⊢
    rw [levInner]
    rw [show min (min (editDistance A (c2 :: B) + 1) (editDistance (c1 :: A) B + 1))
          (editDistance A B + if c1 = c2 then 0 else 1) =
        editDistance (c1 :: A) (c2 :: B) from (editDistance_cons_cons c1 c2 A B).symm]
    rw [ih]

theorem levOuter_spec (s2 : Str) :
    ∀ (s1rem A : Str),
      levOuter s2 s1rem (rowFrom A [] s2) A.length =
        rowFrom (s1rem.reverse ++ A) [] s2
  | [], A => by simp [levOuter]
  | c1 :: rest, A => by
    rw [levOuter]
    have h1 : (A.length + 1 : Nat) = editDistance (c1 :: A) [] := by simp
    rw [show ((A.length + 1) :: levInner c1 s2 (rowFrom A [] s2) (A.length + 1) =
        rowFrom (c1 :: A) [] s2) from by
      rw [h1, levInner_spec c1 s2 A []]
      rfl]
    have ih := levOuter_spec s2 rest (c1 :: A)
    simp only [List.length_cons] at ih
    rw [ih]
    simp

theorem rowFrom_nil_left : ∀ (t B : Str), rowFrom [] B t = List.range' B.length (t.length + 1)
  | [], B => by simp [rowFrom, rowAux, List.range'_succ]
  | c :: t', B => by
    have ih := rowFrom_nil_left t' (c :: B)
    simp only [rowFrom, rowAux, editDistance_nil_left, List.length_cons] at ih ⊢
    rw [List.range'_succ]
    exact congrArg _ ih

theorem rowFrom_getLastD : ∀ (t A B : Str) (d : Nat),
    (rowFrom A B t).getLastD d = editDistance A (t.reverse ++ B)
  | [], A, B, d => by simp [rowFrom, rowAux]
  | c :: t', A, B, d => by
    have hstep : rowFrom A B (c :: t') = editDistance A B :: rowFrom A (c :: B) t' := by
      simp [rowFrom, rowAux]
    rw [hstep, List.getLastD_cons, rowFrom_getLastD t' A (c :: B)]
    simp

/-- The dynamic programming of `levenshtein_distance` computes the textbook
unit-cost edit distance. -/
theorem levenshtein_distance_eq_editDistance (s1 s2 : Str) :
    levenshtein_distance s1 s2 = editDistance s1 s2 := by
  have main : ∀ (rows cols : Str), cols.length ≠ 0 →
      (levOuter cols rows (List.range (cols.length + 1)) 0).getLastD 0 =
        editDistance rows cols := by
    intro rows cols _
    have h0 : List.range (cols.length + 1) = rowFrom ([] : Str) [] cols := by
      rw [rowFrom_nil_left]
      simp [List.range_eq_range']
    rw [h0]
    have h1 := levOuter_spec cols rows []
    simp only [List.length_nil, List.append_nil] at h1
    rw [h1, rowFrom_getLastD]
    rw [List.append_nil]
    rw [← editDistance_reverse rows.reverse cols.reverse]
    simp
  unfold levenshtein_distance
  by_cases hlt : s1.length < s2.length
  · simp only [hlt, if_true]
    by_cases h0 : s1.length = 0
    · have : s1 = [] := List.length_eq_zero.mp h0
      simp [this, h0]
    · simp only [h0, if_false]
      rw [main s2 s1 h0, editDistance_comm]
  · simp only [hlt, if_false]
    by_cases h0 : s2.length = 0
    · have : s2 = [] := List.length_eq_zero.mp h0
      simp [this, h0]
    · simp only [h0, if_false]
      rw [main s1 s2 h0]

/-! ### Insertion monotonicity of the edit distance -/

theorem editDistance_cons_le (x : Char) (xs b : Str) :
    editDistance (x :: xs) b ≤ editDistance xs b + 1 := by
  cases b with
  | nil => simp
  | cons y ys => rw [editDistance_cons_cons]; omega

theorem editDistance_le_cons_right (c : Char) :
    ∀ (a : Str), c ∉ a → ∀ (b : Str), editDistance a b ≤ editDistance a (c :: b)
  | [], _, b => by simp
  | x :: xs, h, b => by
    have hx : ¬x = c := fun hxc => h (hxc ▸ List.mem_cons_self x xs)
    have hxs : c ∉ xs := fun hm => h (List.mem_cons_of_mem x hm)
    have ih := editDistance_le_cons_right c xs hxs b
    have h1 := editDistance_cons_le x xs b
    rw [editDistance_cons_cons]
    have hc : (if x = c then 0 else 1) = 1 := by simp [hx]
    rw [hc]
    omega

/-- The list `b` with `c` inserted at position `n` (Python `b[:n] + c + b[n:]`,
clamping `n` to the length as list slicing does). -/
def pyInsert : Nat → Char → Str → Str
  | 0, c, l => c :: l
  | _ + 1, c, [] => [c]
  | n + 1, c, x :: xs => x :: pyInsert n c xs

@[simp] theorem length_pyInsert : ∀ (n : Nat) (c : Char) (l : Str),
    (pyInsert n c l).length = l.length + 1
  | 0, _, _ => rfl
  | _ + 1, _, [] => rfl
  | n + 1, c, _ :: xs => by simp [pyInsert, length_pyInsert n c xs]

theorem editDistance_le_insert (c : Char) : ∀ (b : Str) (n : Nat) (a : Str), c ∉ a →
    editDistance a b ≤ editDistance a (pyInsert n c b)
  | b, 0, a, h => editDistance_le_cons_right c a h b
  | [], _ + 1, a, h => editDistance_le_cons_right c a h []
  | _ :: ys, _ + 1, [], _ => by simp [pyInsert]
  | y :: ys, n + 1, x :: xs, h => by
    have hxs : c ∉ xs := fun hm => h (List.mem_cons_of_mem x hm)
    have ih1 := editDistance_le_insert c (y :: ys) (n + 1) xs hxs
    have ih2 := editDistance_le_insert c ys n (x :: xs) h
    have ih3 := editDistance_le_insert c ys n xs hxs
    simp only [pyInsert] at ih1 ⊢
    rw [editDistance_cons_cons, editDistance_cons_cons]
    simp only [le_min_iff, min_le_iff]
    omega
termination_by b _ a => (b.length, a.length)

/-! ### Claims C7 and C8: `levenshtein_similarity` -/

/-- C7 counterexample: on two empty strings `levenshtein_similarity`
returns `0`, not `1` as the specification claims. -/
theorem levenshtein_similarity_empty_empty_ne_one :
    levenshtein_similarity [] [] = 0 ∧ levenshtein_similarity [] [] ≠ 1 := by
  constructor <;> with_unfolding_all decide

/-- C7 (amended): the dynamic programming `levenshtein_distance` computes
the textbook unit-cost edit distance; `levenshtein_similarity` is
`1 - distance / max(len, len)` for two nonempty strings and `0` whenever
either string is empty — including the case where both are empty. -/
theorem levenshtein_similarity_spec (s1 s2 : Str) :
    levenshtein_distance s1 s2 = editDistance s1 s2 ∧
    (s1 = [] ∨ s2 = [] → levenshtein_similarity s1 s2 = 0) ∧
    (s1 ≠ [] → s2 ≠ [] →
      levenshtein_similarity s1 s2 =
        1 - (editDistance s1 s2 : ℚ) / (max s1.length s2.length : ℚ)) := by
  refine ⟨levenshtein_distance_eq_editDistance s1 s2, ?_, ?_⟩
  · intro h
    simp only [levenshtein_similarity, if_pos h]
  · intro h1 h2
    have hmax : max s1.length s2.length ≠ 0 := by
      have : s1.length ≠ 0 := fun h => h1 (List.length_eq_zero.mp h)
      omega
    simp only [levenshtein_similarity, h1, h2, or_self, if_false, hmax,
      levenshtein_distance_eq_editDistance]
    rw [Nat.cast_max]

/-- C7 witness: the nonempty-input clause at `"ab"` versus `"b"`. -/
theorem levenshtein_similarity_spec_witness :
    levenshtein_similarity "ab".toList "b".toList =
      1 - (editDistance "ab".toList "b".toList : ℚ) /
        (max "ab".toList.length "b".toList.length : ℚ) :=
  (levenshtein_similarity_spec "ab".toList "b".toList).2.2 (by decide) (by decide)

/-- C8 counterexample: inserting the character `'c'` (which does not occur
in `a = "xab"`) at the front of `b = "abz"` strictly increases
`levenshtein_similarity a b`, because the denominator `max(len(a), len(b))`
grows while the distance stays `2`. -/
theorem levenshtein_similarity_insert_increases :
    ('c' ∉ "xab".toList) ∧
    pyInsert 0 'c' "abz".toList = "cabz".toList ∧
    levenshtein_similarity "xab".toList "abz".toList <
      levenshtein_similarity "xab".toList "cabz".toList := by
  refine ⟨by decide, by decide, ?_⟩
  with_unfolding_all decide

/-- C8 (amended): inserting one character `c` that does not occur in `a`
anywhere into `b` never decreases `levenshtein_distance a b`; the
similarity, however, is only guaranteed not to increase when `a` is
strictly longer than `b` (the counterexample shows it can increase when
`len(b) ≥ len(a)`). -/
theorem levenshtein_insert_monotone (a b : Str) (c : Char) (n : Nat) (hc : c ∉ a) :
    levenshtein_distance a b ≤ levenshtein_distance a (pyInsert n c b) ∧
    (b ≠ [] → b.length < a.length →
      levenshtein_similarity a (pyInsert n c b) ≤ levenshtein_similarity a b) := by
  constructor
  · rw [levenshtein_distance_eq_editDistance, levenshtein_distance_eq_editDistance]
    exact editDistance_le_insert c b n a hc
  · intro hb hlen
    have ha : a ≠ [] := by
      intro h
      rw [h] at hlen
      simp at hlen
    have hins : pyInsert n c b ≠ [] := by
      have := length_pyInsert n c b
      intro h
      rw [h] at this
      simp at this
    have hmax1 : max a.length b.length = a.length := Nat.max_eq_left (Nat.le_of_lt hlen)
    have hmax2 : max a.length (pyInsert n c b).length = a.length := by
      rw [length_pyInsert]
      exact Nat.max_eq_left hlen
    have halen : a.length ≠ 0 := fun h => ha (List.length_eq_zero.mp h)
    simp only [levenshtein_similarity, ha, hb, hins, or_self, if_false, or_false,
      false_or, hmax1, hmax2, if_neg halen, levenshtein_distance_eq_editDistance]
    have hd := editDistance_le_insert c b n a hc
    have hpos : (0 : ℚ) < (a.length : ℚ) := by
      exact_mod_cast Nat.pos_of_ne_zero halen
    have hdiv : (editDistance a b : ℚ) / (a.length : ℚ) ≤
        (editDistance a (pyInsert n c b) : ℚ) / (a.length : ℚ) :=
      (div_le_div_iff_of_pos_right hpos).mpr (by exact_mod_cast hd)
    exact sub_le_sub_left hdiv 1

/-- C8 witness: both clauses at `a = "abc"`, `b = "ab"`, inserting `'z'`
at position `1`. -/
theorem levenshtein_insert_monotone_witness :
    levenshtein_distance "abc".toList "ab".toList ≤
      levenshtein_distance "abc".toList (pyInsert 1 'z' "ab".toList) ∧
    levenshtein_similarity "abc".toList (pyInsert 1 'z' "ab".toList) ≤
      levenshtein_similarity "abc".toList "ab".toList :=
  ⟨(levenshtein_insert_monotone "abc".toList "ab".toList 'z' 1 (by decide)).1,
   (levenshtein_insert_monotone "abc".toList "ab".toList 'z' 1 (by decide)).2
     (by decide) (by decide)⟩

/-! ### Claim C6: idempotence of `normalize_name` -/

theorem key_not_value : ∀ p ∈ lowerPairs, lowerPairs.find? (fun q => q.1 == p.2) = none := by
  decide

theorem pyLower_idem (c : Char) : pyLower (pyLower c) = pyLower c := by
  unfold pyLower
  cases h : lowerPairs.find? (fun p => p.1 == c) with
  | none => rw [h]
  | some p => rw [key_not_value p (List.mem_of_find?_eq_some h)]

theorem pyLower_of_space {c : Char} (h : isPySpace c = true) : pyLower c = c := by
  simp only [isPySpace, Bool.or_eq_true, beq_iff_eq] at h
  rcases h with ((((h | h) | h) | h) | h) | h <;> subst h <;> decide

/-- All whitespace in the list is a plain space. -/
def SpacesPlain (l : Str) : Prop := ∀ c ∈ l, isPySpace c = true → c = ' '

/-- No two adjacent whitespace characters. -/
def NoAdjWS (l : Str) : Prop :=
  List.Chain' (fun a b => ¬(isPySpace a = true ∧ isPySpace b = true)) l

theorem mem_collapseAux : ∀ (flag : Bool) (l : Str) (c : Char),
    c ∈ collapseAux flag l → c = ' ' ∨ (c ∈ l ∧ isPySpace c = false)
  | _, [], _, h => by simp [collapseAux] at h
  | flag, d :: rest, c, h => by
    by_cases hd : isPySpace d = true
    · simp only [collapseAux, hd, if_true] at h
      cases flag with
      | true =>
        rcases mem_collapseAux true rest c h with h' | ⟨h1, h2⟩
        · exact Or.inl h'
        · exact Or.inr ⟨List.mem_cons_of_mem d h1, h2⟩
      | false =>
        rcases List.mem_cons.mp h with h' | h'
        · exact Or.inl h'
        · rcases mem_collapseAux true rest c h' with h'' | ⟨h1, h2⟩
          · exact Or.inl h''
          · exact Or.inr ⟨List.mem_cons_of_mem d h1, h2⟩
    · simp only [collapseAux, hd, if_false] at h
      rcases List.mem_cons.mp h with h' | h'
      · subst h'
        exact Or.inr ⟨List.mem_cons_self c rest, Bool.not_eq_true _ ▸ hd⟩
      · rcases mem_collapseAux false rest c h' with h'' | ⟨h1, h2⟩
        · exact Or.inl h''
        · exact Or.inr ⟨List.mem_cons_of_mem d h1, h2⟩

theorem spacesPlain_collapseAux (flag : Bool) (l : Str) : SpacesPlain (collapseAux flag l) := by
  intro c hc _
  rcases mem_collapseAux flag l c hc with h | ⟨_, h2⟩
  · exact h
  · exact absurd ‹isPySpace c = true› (by simp [h2])

theorem collapseAux_true_head : ∀ (l : Str) (d : Char) (t : Str),
    collapseAux true l = d :: t → isPySpace d = false
  | [], _, _, h => by simp [collapseAux] at h
  | c :: rest, d, t, h => by
    by_cases hc : isPySpace c = true
    · simp only [collapseAux, hc, if_true] at h
      exact collapseAux_true_head rest d t h
    · simp [collapseAux, hc] at h
      rw [← h.1]
      exact Bool.not_eq_true _ ▸ hc

theorem noAdjWS_collapseAux : ∀ (flag : Bool) (l : Str), NoAdjWS (collapseAux flag l)
  | _, [] => List.chain'_nil
  | flag, c :: rest => by
    by_cases hc : isPySpace c = true
    · cases flag with
      | true =>
        simp only [collapseAux, hc, if_true]
        exact noAdjWS_collapseAux true rest
      | false =>
        simp only [collapseAux, hc, if_true]
        refine List.chain'_cons'.mpr ⟨?_, noAdjWS_collapseAux true rest⟩
        intro y hy
        cases ht : collapseAux true rest with
        | nil => rw [ht] at hy; simp at hy
        | cons d t =>
          rw [ht] at hy
          simp only [List.head?_cons, Option.mem_def, Option.some.injEq] at hy
          subst hy
          simp [collapseAux_true_head rest d t ht]
    · simp only [collapseAux, hc, if_false]
      refine List.chain'_cons'.mpr ⟨?_, noAdjWS_collapseAux false rest⟩
      intro y _
      simp [hc]

theorem collapseAux_true_eq_of_head (l : Str)
    (h : l = [] ∨ ∃ d t, l = d :: t ∧ isPySpace d = false) :
    collapseAux true l = collapseAux false l := by
  rcases h with h | ⟨d, t, rfl, hd⟩
  · subst h; rfl
  · simp [collapseAux, hd]

theorem collapseAux_false_of_good : ∀ (l : Str), SpacesPlain l → NoAdjWS l →
    collapseAux false l = l
  | [], _, _ => rfl
  | c :: rest, hplain, hadj => by
    have hrest : collapseAux false rest = rest :=
      collapseAux_false_of_good rest
        (fun d hd => hplain d (List.mem_cons_of_mem c hd))
        ((List.chain'_cons'.mp hadj).2)
    by_cases hc : isPySpace c = true
    · have hcsp : c = ' ' := hplain c (List.mem_cons_self c rest) hc
      have hhead : rest = [] ∨ ∃ d t, rest = d :: t ∧ isPySpace d = false := by
        cases rest with
        | nil => exact Or.inl rfl
        | cons d t =>
          refine Or.inr ⟨d, t, rfl, ?_⟩
          have := (List.chain'_cons'.mp hadj).1 d (by simp)
          by_cases hd : isPySpace d = true
          · exact absurd ⟨hc, hd⟩ this
          · exact Bool.not_eq_true _ ▸ hd
      simp only [collapseAux, hc, if_true]
      rw [collapseAux_true_eq_of_head rest hhead, hrest, hcsp]
      simp
    · simp [collapseAux, hc, hrest]

theorem pyStrip_isInfix (l : Str) : pyStrip l <:+: l := by
  have h1 : l.dropWhile isPySpace <:+ l := List.dropWhile_suffix isPySpace
  have h2 : (l.dropWhile isPySpace).rdropWhile isPySpace <+: l.dropWhile isPySpace :=
    List.rdropWhile_prefix _ _
  exact h2.isInfix.trans h1.isInfix

/-- Every character of a normalized name is fixed by `pyLower`. -/
theorem normalize_name_lower_fixed (x : Str) :
    ∀ c ∈ normalize_name x, pyLower c = c := by
  intro c hc
  unfold normalize_name at hc
  by_cases hx : x = []
  · simp [hx] at hc
  · simp only [hx, if_false, collapseWS] at hc
    rcases mem_collapseAux false _ c hc with h | ⟨h1, _⟩
    · subst h; decide
    · have h2 := (List.mem_filter.mp h1).1
      have h3 := (List.mem_filter.mp h2).1
      have h4 : c ∈ x.map pyLower := (pyStrip_isInfix (x.map pyLower)).subset h3
      rcases List.mem_map.mp h4 with ⟨d, _, rfl⟩
      exact pyLower_idem d

theorem normalize_name_no_dot (x : Str) : '.' ∉ normalize_name x := by
  intro hc
  unfold normalize_name at hc
  by_cases hx : x = []
  · simp [hx] at hc
  · simp only [hx, if_false, collapseWS] at hc
    rcases mem_collapseAux false _ '.' hc with h | ⟨h1, _⟩
    · exact absurd h (by decide)
    · have h2 := (List.mem_filter.mp h1).1
      have h3 := (List.mem_filter.mp h2).2
      simp at h3

theorem normalize_name_no_comma (x : Str) : ',' ∉ normalize_name x := by
  intro hc
  unfold normalize_name at hc
  by_cases hx : x = []
  · simp [hx] at hc
  · simp only [hx, if_false, collapseWS] at hc
    rcases mem_collapseAux false _ ',' hc with h | ⟨h1, _⟩
    · exact absurd h (by decide)
    · have h2 := (List.mem_filter.mp h1).2
      simp at h2

theorem normalize_name_spacesPlain (x : Str) : SpacesPlain (normalize_name x) := by
  unfold normalize_name
  by_cases hx : x = []
  · simp [hx]
    intro c hc
    simp at hc
  · simp only [hx, if_false, collapseWS]
    exact spacesPlain_collapseAux false _

theorem normalize_name_noAdjWS (x : Str) : NoAdjWS (normalize_name x) := by
  unfold normalize_name
  by_cases hx : x = []
  · simp only [hx, if_true]
    exact List.chain'_nil
  · simp only [hx, if_false, collapseWS]
    exact noAdjWS_collapseAux false _

/-- C6 counterexample: `normalize_name` is not idempotent.  On `". a"` the
period removal exposes a leading space only after the strip has already
happened, so the first pass returns `" a"` and the second `"a"`. -/
theorem normalize_name_not_idempotent :
    normalize_name (normalize_name ". a".toList) ≠ normalize_name ". a".toList ∧
    normalize_name ". a".toList = " a".toList ∧
    normalize_name (normalize_name ". a".toList) = "a".toList := by
  refine ⟨?_, by decide, by decide⟩
  decide

/-- C6 (amended): a second application of `normalize_name` only strips the
leading/trailing whitespace that removing periods and commas may have
exposed: `normalize_name (normalize_name x) = pyStrip (normalize_name x)`.
In particular `normalize_name` is idempotent exactly on those inputs where
the first pass returns an already-stripped string. -/
theorem normalize_name_twice (x : Str) :
    normalize_name (normalize_name x) = pyStrip (normalize_name x) := by
  by_cases hr : normalize_name x = []
  · rw [hr]
    rfl
  · have hfix := normalize_name_lower_fixed x
    have hmap : (normalize_name x).map pyLower = normalize_name x := by
      rw [List.map_congr_left hfix]
      exact List.map_id _
    have hplain : SpacesPlain (pyStrip (normalize_name x)) := by
      intro c hc
      exact normalize_name_spacesPlain x c ((pyStrip_isInfix _).subset hc)
    have hadj : NoAdjWS (pyStrip (normalize_name x)) := by
      obtain ⟨s, t, heq⟩ := pyStrip_isInfix (normalize_name x)
      have h0 := normalize_name_noAdjWS x
      rw [← heq, List.append_assoc] at h0
      exact h0.right_of_append.left_of_append
    have hdot : (pyStrip (normalize_name x)).filter (fun c => c ≠ '.') =
        pyStrip (normalize_name x) := by
      rw [List.filter_eq_self]
      intro a ha
      have : a ∈ normalize_name x := (pyStrip_isInfix _).subset ha
      simp only [ne_eq, decide_eq_true_eq]
      intro h
      subst h
      exact normalize_name_no_dot x this
    have hcomma : (pyStrip (normalize_name x)).filter (fun c => c ≠ ',') =
        pyStrip (normalize_name x) := by
      rw [List.filter_eq_self]
      intro a ha
      have : a ∈ normalize_name x := (pyStrip_isInfix _).subset ha
      simp only [ne_eq, decide_eq_true_eq]
      intro h
      subst h
      exact normalize_name_no_comma x this
    have hunfold : ∀ (r : Str), r ≠ [] → normalize_name r =
        collapseWS (((pyStrip (r.map pyLower)).filter (fun c => c ≠ '.')).filter
          (fun c => c ≠ ',')) := by
      intro r hrr
      unfold normalize_name
      rw [if_neg hrr]
    rw [hunfold (normalize_name x) hr, hmap, hdot, hcomma]
    exact collapseAux_false_of_good _ hplain hadj

/-! ### Claims C5 and C10: `find_best_match` -/

/-- The maximum of `0` and all candidate scores — the final value of
`best_score` in `find_best_match`. -/
def bestScoreOf (p : Str) (cs : List Str) : ℚ :=
  cs.foldl (fun acc c => max acc (calculate_match_score p c).1) 0

theorem le_foldl_max (g : Str → ℚ) :
    ∀ (cs : List Str) (b : ℚ), b ≤ cs.foldl (fun acc c => max acc (g c)) b
  | [], _ => le_refl _
  | c :: rest, b => le_trans (le_max_left b (g c)) (le_foldl_max g rest _)

theorem elem_le_foldl_max (g : Str → ℚ) :
    ∀ (cs : List Str) (b : ℚ) (d : Str), d ∈ cs →
      g d ≤ cs.foldl (fun acc c => max acc (g c)) b
  | c :: rest, b, d, hd => by
    rcases List.mem_cons.mp hd with h | h
    · subst h
      exact le_trans (le_max_right b (g d)) (le_foldl_max g rest _)
    · exact elem_le_foldl_max g rest _ d h

theorem foldl_max_of_le (g : Str → ℚ) :
    ∀ (cs : List Str) (b : ℚ), (∀ d ∈ cs, g d ≤ b) →
      cs.foldl (fun acc c => max acc (g c)) b = b
  | [], _, _ => rfl
  | c :: rest, b, h => by
    have h1 : max b (g c) = b := max_eq_left (h c (List.mem_cons_self c rest))
    simp only [List.foldl_cons, h1]
    exact foldl_max_of_le g rest b (fun d hd => h d (List.mem_cons_of_mem c hd))

theorem bestLoop_score (p : Str) :
    ∀ (cs : List Str) (bs : ℚ) (bm : Option Str) (br : String),
      (bestLoop p cs bs bm br).1 =
        cs.foldl (fun acc c => max acc (calculate_match_score p c).1) bs
  | [], _, _, _ => rfl
  | c :: rest, bs, bm, br => by
    simp only [bestLoop, List.foldl_cons]
    by_cases h : bs < (calculate_match_score p c).1
    · rw [if_pos h, bestLoop_score p rest, max_eq_right (le_of_lt h)]
    · rw [if_neg h, bestLoop_score p rest, max_eq_left (le_of_not_lt h)]

theorem bestLoop_match (p : Str) :
    ∀ (cs : List Str) (bs : ℚ) (bm : Option Str) (br : String),
      (bestLoop p cs bs bm br).2.1 =
        if ∀ c ∈ cs, (calculate_match_score p c).1 ≤ bs then bm
        else cs.find? (fun c => (calculate_match_score p c).1 ==
          cs.foldl (fun acc d => max acc (calculate_match_score p d).1) bs)
  | [], bs, bm, br => by simp [bestLoop]
  | c :: rest, bs, bm, br => by
    simp only [bestLoop]
    by_cases h : bs < (calculate_match_score p c).1
    · rw [if_pos h, bestLoop_match p rest]
      have hcond : ¬∀ d ∈ c :: rest, (calculate_match_score p d).1 ≤ bs := by
        intro hall
        exact absurd (hall c (List.mem_cons_self c rest)) (not_le.mpr h)
      rw [if_neg hcond]
      have hfold : (c :: rest).foldl
          (fun acc d => max acc (calculate_match_score p d).1) bs =
          rest.foldl (fun acc d => max acc (calculate_match_score p d).1)
            (calculate_match_score p c).1 := by
        simp only [List.foldl_cons, max_eq_right (le_of_lt h)]
      by_cases hall : ∀ d ∈ rest, (calculate_match_score p d).1 ≤ (calculate_match_score p c).1
      · rw [if_pos hall]
        have hM : rest.foldl (fun acc d => max acc (calculate_match_score p d).1)
            (calculate_match_score p c).1 = (calculate_match_score p c).1 :=
          foldl_max_of_le _ rest _ hall
        rw [List.find?_cons, hfold, hM]
        simp
      · rw [if_neg hall]
        push_neg at hall
        rcases hall with ⟨d, hd, hgt⟩
        have hM : (calculate_match_score p c).1 <
            rest.foldl (fun acc e => max acc (calculate_match_score p e).1)
              (calculate_match_score p c).1 :=
          lt_of_lt_of_le hgt (elem_le_foldl_max _ rest _ d hd)
        rw [List.find?_cons, hfold]
        have : ((calculate_match_score p c).1 ==
            rest.foldl (fun acc e => max acc (calculate_match_score p e).1)
              (calculate_match_score p c).1) = false := by
          simp only [beq_eq_false_iff_ne, ne_eq]
          exact ne_of_lt hM
        rw [this]
    · rw [if_neg h, bestLoop_match p rest]
      have hle : (calculate_match_score p c).1 ≤ bs := le_of_not_lt h
      have hfold : (c :: rest).foldl
          (fun acc d => max acc (calculate_match_score p d).1) bs =
          rest.foldl (fun acc d => max acc (calculate_match_score p d).1) bs := by
        simp only [List.foldl_cons, max_eq_left hle]
      by_cases hall : ∀ d ∈ rest, (calculate_match_score p d).1 ≤ bs
      · rw [if_pos hall, if_pos ?_]
        intro d hd
        rcases List.mem_cons.mp hd with h' | h'
        · subst h'; exact hle
        · exact hall d h'
      · rw [if_neg hall, if_neg ?_]
        swap
        · intro hcontra
          exact hall (fun d hd => hcontra d (List.mem_cons_of_mem c hd))
        push_neg at hall
        rcases hall with ⟨d, hd, hgt⟩
        have hM : (calculate_match_score p c).1 <
            rest.foldl (fun acc e => max acc (calculate_match_score p e).1) bs :=
          lt_of_le_of_lt hle (lt_of_lt_of_le hgt (elem_le_foldl_max _ rest bs d hd))
        rw [List.find?_cons, hfold]
        have : ((calculate_match_score p c).1 ==
            rest.foldl (fun acc e => max acc (calculate_match_score p e).1) bs) = false := by
          simp only [beq_eq_false_iff_ne, ne_eq]
          exact ne_of_lt hM
        rw [this]

theorem bestScoreOf_nonneg (p : Str) (cs : List Str) : 0 ≤ bestScoreOf p cs :=
  le_foldl_max _ cs 0

theorem bestScoreOf_eq_zero_iff (p : Str) (cs : List Str) :
    bestScoreOf p cs = 0 ↔ ∀ c ∈ cs, (calculate_match_score p c).1 ≤ 0 := by
  constructor
  · intro h c hc
    have := elem_le_foldl_max (fun c => (calculate_match_score p c).1) cs 0 c hc
    rw [← bestScoreOf, h] at this
    exact this
  · intro h
    exact foldl_max_of_le _ cs 0 h

/-- C5 (amended): `find_best_match` never returns a result scoring below
`min_score`; it returns `None` exactly when the pick name is empty, the
candidate pool is empty, or the maximum of `0` and all candidate scores is
below `min_score`; the returned score is that maximum, and the kept
candidate is the first one whose score equals it — except that when the
maximum is `0` no candidate is ever kept and `matched_name` is `None`,
because a candidate replaces the running best only on a strictly higher
score and the running best starts at `0`. -/
theorem find_best_match_spec (m : NameMatcher) (p : Str) (cs : List Str) (ms : ℚ) :
    (∀ r, find_best_match m p cs ms = some r →
      ms ≤ r.score ∧ r.score = bestScoreOf p cs ∧
      r.matched_name = (if bestScoreOf p cs = 0 then none
        else cs.find? (fun c => (calculate_match_score p c).1 == bestScoreOf p cs))) ∧
    (find_best_match m p cs ms = none ↔ p = [] ∨ cs = [] ∨ bestScoreOf p cs < ms) := by
  unfold find_best_match
  by_cases hg : p = [] ∨ cs = []
  · rw [if_pos hg]
    constructor
    · intro r hr
      simp at hr
    · simp [hg]
      tauto
  · rw [if_neg hg]
    have hscore : (bestLoop p cs 0 none "").1 = bestScoreOf p cs :=
      bestLoop_score p cs 0 none ""
    by_cases hlt : (bestLoop p cs 0 none "").1 < ms
    · simp only [hlt, if_true]
      constructor
      · intro r hr
        simp at hr
      · simp only [true_iff]
        exact Or.inr (Or.inr (hscore ▸ hlt))
    · simp only [hlt, if_false]
      constructor
      · intro r hr
        have hr' := (Option.some.injEq _ _).mp hr
        subst hr'
        refine ⟨le_of_not_lt hlt, hscore, ?_⟩
        have hmatch := bestLoop_match p cs 0 none ""
        by_cases hM : bestScoreOf p cs = 0
        · rw [if_pos hM]
          rw [if_pos ((bestScoreOf_eq_zero_iff p cs).mp hM)] at hmatch
          exact hmatch
        · rw [if_neg hM]
          rw [if_neg (fun hall => hM ((bestScoreOf_eq_zero_iff p cs).mpr hall))] at hmatch
          exact hmatch
      · constructor
        · intro h
          simp at h
        · intro h
          rcases h with h | h | h
          · exact absurd (Or.inl h) hg
          · exact absurd (Or.inr h) hg
          · exact absurd (hscore ▸ h) hlt

/-- C5 witness: exercising both clauses.  With pick `"ab"`, candidates
`["ab", "zz"]` and `min_score = 1/2` a result is returned, scoring `1`
(the exact match, first in the list); with `min_score = 2` the same call
returns `None`. -/
theorem find_best_match_spec_witness :
    (∃ r, find_best_match defaultMatcher "ab".toList ["ab".toList, "zz".toList] (1/2) =
        some r ∧ (1/2 : ℚ) ≤ r.score) ∧
    find_best_match defaultMatcher "ab".toList ["ab".toList, "zz".toList] 2 = none := by
  constructor
  · have h : find_best_match defaultMatcher "ab".toList ["ab".toList, "zz".toList] (1/2) =
        some (MatchResult.mk (some "ab".toList) 1 "exact" "Exact match" true "ab".toList) := by
      with_unfolding_all decide
    exact ⟨_, h, ((find_best_match_spec defaultMatcher "ab".toList
      ["ab".toList, "zz".toList] (1/2)).1 _ h).1⟩
  · exact (find_best_match_spec defaultMatcher "ab".toList
      ["ab".toList, "zz".toList] 2).2.mpr
      (Or.inr (Or.inr (by with_unfolding_all decide)))

/-- C5 counterexample: two distinct candidates (both the empty string) tie
for the highest score `0` against pick `"a"` with `min_score = 0`; the
result keeps neither — `matched_name` is `None`, not the first candidate —
so "ties keep the first encountered" fails when the tying score is `0`. -/
theorem find_best_match_zero_tie :
    find_best_match defaultMatcher "a".toList ["".toList, "".toList] 0 =
      some (MatchResult.mk none 0 "low" "" false "a".toList) ∧
    (none : Option Str) ≠ some "".toList := by
  constructor
  · with_unfolding_all decide
  · simp

theorem bestLoop_all_zero (p : Str) :
    ∀ (cs : List Str), (∀ c ∈ cs, (calculate_match_score p c).1 = 0) →
      bestLoop p cs 0 none "" = (0, none, "")
  | [], _ => rfl
  | c :: rest, h => by
    have hc : (calculate_match_score p c).1 = 0 := h c (List.mem_cons_self c rest)
    simp only [bestLoop, hc, lt_irrefl, if_false]
    exact bestLoop_all_zero p rest (fun d hd => h d (List.mem_cons_of_mem c hd))

/-- C10: when the pick name is nonempty, the candidate pool is nonempty and
every candidate scores exactly `0`, `find_best_match` with `min_score = 0`
does **not** return `None`: it returns a result whose `matched_name` is
`None`, with score `0`, confidence `"low"` and `auto_accept = false`. -/
theorem find_best_match_all_zero (p : Str) (cs : List Str) (h1 : p ≠ []) (h2 : cs ≠ [])
    (h3 : ∀ c ∈ cs, (calculate_match_score p c).1 = 0) :
    find_best_match defaultMatcher p cs 0 =
      some (MatchResult.mk none 0 "low" "" false p) := by
  unfold find_best_match
  rw [if_neg (by simp [h1, h2])]
  have hloop := bestLoop_all_zero p cs h3
  rw [hloop]
  have hconf : confidenceOf defaultMatcher 0 = "low" := by
    with_unfolding_all decide
  have hacc : decide (defaultMatcher.auto_accept_threshold ≤ (0 : ℚ)) = false := by
    with_unfolding_all decide
  simp only [lt_irrefl, if_false, hconf, hacc]

/-- C10 witness: pick `"a"` against the single empty-string candidate. -/
theorem find_best_match_all_zero_witness :
    find_best_match defaultMatcher "a".toList ["".toList] 0 =
      some (MatchResult.mk none 0 "low" "" false "a".toList) :=
  find_best_match_all_zero "a".toList ["".toList] (by decide) (by decide)
    (by intro c hc; simp at hc; subst hc; with_unfolding_all decide)

/-! ### Claim C1: the "Mahomes" scenario -/

/-- C1 counterexample: `calculate_match_score("Mahomes", "Patrick Mahomes")`
returns `0.90`, not `0.95`.  The single-token-versus-surname comparison is
reached first inside the nickname-variation loop (which includes the
unexpanded normalized names), so the `0.90` nickname-expansion rule fires
before `token_similarity`'s `0.95` surname rule can contribute. -/
theorem mahomes_score_not_95 :
    (calculate_match_score "Mahomes".toList "Patrick Mahomes".toList).1 = 0.90 ∧
    (calculate_match_score "Mahomes".toList "Patrick Mahomes".toList).1 ≠ 0.95 := by
  constructor <;> with_unfolding_all decide

/-- C1 (amended): resolving pick `"Mahomes"` against the sole candidate
`"Patrick Mahomes"` scores `0.90` via the nickname-expansion rule, with
confidence `"high"` and `auto_accept = true`. -/
theorem mahomes_match :
    find_best_match defaultMatcher "Mahomes".toList ["Patrick Mahomes".toList] 0 =
      some (MatchResult.mk (some "Patrick Mahomes".toList) 0.90 "high"
        "Nickname expansion match" true "Mahomes".toList) := by
  with_unfolding_all decide

/-! ### Claim C9: totality of `calculate_payout` -/

/-- The American-odds profit formula for a winning pick. -/
def winPayout (p : Pick) : ℚ :=
  if 0 < p.odds then p.stake * ((p.odds : ℚ) / 100)
  else p.stake * 100 / (p.odds.natAbs : ℚ)

/-- On a winning pick with nonzero odds, `calculate_payout` returns the
American-odds profit. -/
theorem calculate_payout_win (p : Pick) (hodds : p.odds ≠ 0) (hres : p.result = "W") :
    calculate_payout p = some (winPayout p) := by
  unfold calculate_payout winPayout
  rw [if_pos hres]
  by_cases hpos : 0 < p.odds
  · rw [if_pos hpos, if_pos hpos]
  · rw [if_neg hpos, if_neg hpos]
    have hne : (p.odds.natAbs : ℚ) ≠ 0 := by
      simp only [ne_eq, Nat.cast_eq_zero, Int.natAbs_eq_zero]
      exact hodds
    have hdiv_ne : ((p.odds.natAbs : ℚ) / 100) ≠ 0 := by
      rw [div_ne_zero_iff]
      exact ⟨hne, by norm_num⟩
    rw [if_neg hdiv_ne, div_div_eq_mul_div]

/-- C9: `calculate_payout` divides by zero exactly on a winning pick with
`odds = 0`; for every pick with nonzero odds it returns the documented
value: the formula on `'W'`, `-stake` on `'L'`, `0` otherwise. -/
theorem calculate_payout_spec (p : Pick) :
    (p.result = "W" → p.odds = 0 → calculate_payout p = none) ∧
    (p.odds ≠ 0 → calculate_payout p =
      some (if p.result = "W" then winPayout p
            else if p.result = "L" then -p.stake else 0)) := by
  constructor
  · intro hres hodds
    unfold calculate_payout
    rw [if_pos hres, if_neg (by omega), if_pos]
    rw [hodds]
    norm_num
  · intro hodds
    by_cases hres : p.result = "W"
    · rw [if_pos hres]
      exact calculate_payout_win p hodds hres
    · rw [if_neg hres]
      unfold calculate_payout
      rw [if_neg hres]
      by_cases hl : p.result = "L"
      · rw [if_pos hl, if_pos hl]
      · rw [if_neg hl, if_neg hl]

/-- C9 witness: odds `0` on a win raises; odds `-110` computes a value. -/
theorem calculate_payout_spec_witness :
    calculate_payout (Pick.mk 1 "x".toList 0 10 "W" 0 none) = none ∧
    calculate_payout (Pick.mk 2 "x".toList (-110) 10 "W" 0 none) ≠ none := by
  constructor
  · exact (calculate_payout_spec _).1 rfl rfl
  · rw [(calculate_payout_spec _).2 (by decide)]
    simp

/-! ### Claim C2: `_grade_single_pick` -/

/-- C2: on every grading attempt (with nonzero odds), a `MatchDecision`
is created iff the best-match score reaches the medium threshold.  Empty
pool or best score below the threshold: the pick becomes a Loss with payout
`-stake` and `graded_at` set, and no decision is recorded.  Score at or
above the threshold: a decision is recorded; if auto-accepted the pick
becomes a Win with the odds-formula payout and `graded_at` set, otherwise
the decision has `needs_review = true` and the pick is left untouched
(still pending). -/
theorem grade_single_pick_spec (svc : GradingService) (pick : Pick)
    (scorer_names : List Str) (matched_scorer : Option Str) (did now : Nat)
    (hodds : pick.odds ≠ 0) :
    ∃ p' dec cnt,
      grade_single_pick svc pick scorer_names matched_scorer did now =
        some (p', dec, cnt) ∧
      (match find_best_match svc.matcher (pyStrip pick.player_name) scorer_names 0 with
       | none =>
         dec = none ∧ p'.result = "L" ∧ p'.payout = -pick.stake ∧
           p'.graded_at = some now ∧ cnt = GradeCounts.mk 1 0 1 0
       | some mr =>
         if svc.medium_threshold ≤ mr.score then
           (∃ d, dec = some d ∧ d.needs_review = !mr.auto_accept ∧
             d.auto_accepted = mr.auto_accept ∧ d.match_score = mr.score ∧
             d.manual_decision = none) ∧
           (mr.auto_accept = true →
             p'.result = "W" ∧ p'.payout = winPayout pick ∧
               p'.graded_at = some now ∧ cnt = GradeCounts.mk 1 1 0 0) ∧
           (mr.auto_accept = false → p' = pick ∧ cnt = GradeCounts.mk 0 0 0 1)
         else
           dec = none ∧ p'.result = "L" ∧ p'.payout = -pick.stake ∧
             p'.graded_at = some now ∧ cnt = GradeCounts.mk 1 0 1 0) := by
  unfold grade_single_pick
  cases hfb : find_best_match svc.matcher (pyStrip pick.player_name) scorer_names 0 with
  | none =>
    dsimp only
    exact ⟨_, _, _, rfl, by simp⟩
  | some mr =>
    dsimp only
    by_cases hmed : svc.medium_threshold ≤ mr.score
    · rw [if_pos hmed]
      by_cases hacc : mr.auto_accept
      · rw [if_pos hacc]
        have hpay := calculate_payout_win { pick with result := "W" } hodds rfl
        rw [hpay]
        refine ⟨_, _, _, rfl, ?_⟩
        rw [if_pos hmed]
        refine ⟨⟨_, rfl, by simp [hacc], rfl, rfl, rfl⟩, ?_, ?_⟩
        · intro _
          refine ⟨rfl, ?_, rfl, rfl⟩
          show winPayout { pick with result := "W" } = winPayout pick
          unfold winPayout
          rfl
        · intro hfalse
          rw [hacc] at hfalse
          cases hfalse
      · rw [if_neg hacc]
        refine ⟨_, _, _, rfl, ?_⟩
        rw [if_pos hmed]
        have hacc' : mr.auto_accept = false := Bool.not_eq_true _ ▸ hacc
        refine ⟨⟨_, rfl, by simp [hacc'], rfl, rfl, rfl⟩, ?_, ?_⟩
        · intro htrue
          rw [htrue] at hacc'
          cases hacc'
        · intro _
          exact ⟨rfl, rfl⟩
    · rw [if_neg hmed]
      refine ⟨_, _, _, rfl, ?_⟩
      rw [if_neg hmed]
      exact ⟨rfl, rfl, rfl, rfl, rfl⟩

/-- C2 witness: grading the pick `"Foo"` (odds `+100`) against the sole
scorer `"Foo"`. -/
theorem grade_single_pick_spec_witness :
    ∃ p' dec cnt,
      grade_single_pick {} (Pick.mk 1 "Foo".toList 100 1 "Pending" 0 none)
        ["Foo".toList] none 7 3 = some (p', dec, cnt) := by
  obtain ⟨p', dec, cnt, h, _⟩ :=
    grade_single_pick_spec {} (Pick.mk 1 "Foo".toList 100 1 "Pending" 0 none)
      ["Foo".toList] none 7 3 (by decide)
  exact ⟨p', dec, cnt, h⟩

/-! ### Claims C3 and C4: the review transitions -/

theorem find?_replace {α : Type} (idOf : α → Nat) :
    ∀ (l : List α) (k : Nat) (m m' : α),
      l.find? (fun x => idOf x == k) = some m → idOf m' = k →
      (l.map (fun x => if idOf x == idOf m' then m' else x)).find?
        (fun x => idOf x == k) = some m'
  | [], _, _, _, h, _ => by simp at h
  | d :: rest, k, m, m', h, hid => by
    by_cases hd : idOf d = k
    · have h1 : (idOf d == idOf m') = true := by simp [hd, hid]
      simp only [List.map_cons]
      rw [if_pos h1]
      exact List.find?_cons_of_pos _ (by simp [hid])
    · have hd' : (idOf d == k) = false := by simp [hd]
      rw [List.find?_cons_of_neg _ (by simp [hd])] at h
      have h2 : (idOf d == idOf m') = false := by rw [hid]; exact hd'
      simp only [List.map_cons]
      rw [if_neg (by simp [h2])]
      rw [List.find?_cons_of_neg _ (by simp [hd])]
      exact find?_replace idOf rest k m m' h hid

theorem findDecision_found_id (db : Db) (mid : Nat) (m : MatchDecision)
    (h : db.findDecision mid = some m) : m.id = mid := by
  have := List.find?_some h
  simpa using this

theorem findPick_found_id (db : Db) (pid : Nat) (p : Pick)
    (h : db.findPick pid = some p) : p.id = pid := by
  have := List.find?_some h
  simpa using this

/-- C3 counterexample: an auto-accepted decision — not in the NeedsReview
state (`needs_review = false`, no manual decision) — is nevertheless
approved successfully: the source performs no state check at all, so no
`InvalidState` failure exists. -/
theorem approve_match_no_state_check :
    (MatchDecision.mk 1 1 "x".toList (some "y".toList) 0.9 "high" "" true false
        none none none 0).needs_review = false ∧
    (approve_match
      (Db.mk
        [MatchDecision.mk 1 1 "x".toList (some "y".toList) 0.9 "high" "" true false
          none none none 0]
        [Pick.mk 1 "x".toList 100 1 "W" 1 (some 0)])
      1 "admin".toList 5).map (fun r => r.1.1) = some true := by
  constructor
  · rfl
  · with_unfolding_all decide

/-- C3 (amended): `approve(decision_id)` fails (with "not found") only for
an unknown id, leaving the database unchanged; for **every** existing
decision — regardless of its state (NeedsReview, AutoAccepted, or already
manually decided) — it succeeds: it records `manual_decision = approved`,
`needs_review = false`, the reviewer and `reviewed_at = now`, and the
linked pick becomes a Win with the odds-formula payout and
`graded_at = now`.  There is no `InvalidState` failure. -/
theorem approve_match_spec (db : Db) (mid : Nat) (rb : Str) (now : Nat) :
    (db.findDecision mid = none →
      approve_match db mid rb now = some ((false, "Match not found"), db)) ∧
    (∀ m, db.findDecision mid = some m → ∀ p, db.findPick m.pick_id = some p →
      p.odds ≠ 0 →
      ∃ db', approve_match db mid rb now = some ((true, "Match approved"), db') ∧
        db'.findDecision mid = some { m with
          manual_decision := some "approved"
          reviewed_by := some rb
          reviewed_at := some now
          needs_review := false } ∧
        db'.findPick m.pick_id = some { p with
          result := "W"
          payout := winPayout p
          graded_at := some now }) := by
  constructor
  · intro h
    unfold approve_match
    rw [h]
  · intro m hm p hp hodds
    unfold approve_match
    rw [hm]
    dsimp only
    rw [hp]
    dsimp only
    have hpay := calculate_payout_win { p with result := "W" } hodds rfl
    rw [hpay]
    dsimp only
    refine ⟨_, rfl, ?_, ?_⟩
    · show ((db.putDecision _).putPick _).findDecision mid = _
      unfold Db.putPick Db.putDecision Db.findDecision
      exact find?_replace MatchDecision.id db.decisions mid m _
        hm (findDecision_found_id db mid m hm)
    · show ((db.putDecision _).putPick _).findPick m.pick_id = _
      unfold Db.putPick Db.putDecision Db.findPick
      have : winPayout { p with result := "W" } = winPayout p := rfl
      rw [this]
      exact find?_replace Pick.id db.picks m.pick_id p _
        hp (findPick_found_id db m.pick_id p hp)

/-- C3 witness: approving a needs-review decision succeeds and mutates the
decision and its pick. -/
theorem approve_match_spec_witness :
    (∃ db', approve_match
        (Db.mk
          [MatchDecision.mk 4 9 "x".toList (some "y".toList) 0.75 "medium" "" false true
            none none none 0]
          [Pick.mk 9 "x".toList (-150) 2 "Pending" 0 none])
        4 "admin".toList 11 = some ((true, "Match approved"), db')) ∧
    approve_match
      (Db.mk
        [MatchDecision.mk 4 9 "x".toList (some "y".toList) 0.75 "medium" "" false true
          none none none 0]
        [Pick.mk 9 "x".toList (-150) 2 "Pending" 0 none])
      5 "admin".toList 11 =
      some ((false, "Match not found"),
        Db.mk
          [MatchDecision.mk 4 9 "x".toList (some "y".toList) 0.75 "medium" "" false true
            none none none 0]
          [Pick.mk 9 "x".toList (-150) 2 "Pending" 0 none]) := by
  constructor
  · obtain ⟨db', h, _, _⟩ :=
      (approve_match_spec
        (Db.mk
          [MatchDecision.mk 4 9 "x".toList (some "y".toList) 0.75 "medium" "" false true
            none none none 0]
          [Pick.mk 9 "x".toList (-150) 2 "Pending" 0 none])
        4 "admin".toList 11).2
        (MatchDecision.mk 4 9 "x".toList (some "y".toList) 0.75 "medium" "" false true
          none none none 0) (by with_unfolding_all decide)
        (Pick.mk 9 "x".toList (-150) 2 "Pending" 0 none) (by with_unfolding_all decide)
        (by decide)
    exact ⟨db', h⟩
  · exact (approve_match_spec _ 5 "admin".toList 11).1 (by with_unfolding_all decide)

/-- C4: `revert(decision_id)` succeeds exactly for decisions carrying a
manual decision (`approved` or `rejected`): it clears the manual decision,
reviewer and review timestamp, sets `needs_review = true`, and resets the
linked pick to Pending with payout `0` and `graded_at` cleared.  For a
decision that was never manually decided (still NeedsReview, or
AutoAccepted — both have no manual decision recorded) it fails and leaves
the database unchanged; an unknown id also fails. -/
theorem revert_match_spec (db : Db) (mid : Nat) :
    (db.findDecision mid = none →
      revert_match db mid = some ((false, "Match not found"), db)) ∧
    (∀ m, db.findDecision mid = some m → m.manual_decision = none →
      revert_match db mid =
        some ((false, "Can only revert manually reviewed matches"), db)) ∧
    (∀ m, db.findDecision mid = some m → ∀ s, m.manual_decision = some s → s ≠ "" →
      ∀ p, db.findPick m.pick_id = some p →
      ∃ db', revert_match db mid =
          some ((true, "Reverted match back to pending review"), db') ∧
        db'.findDecision mid = some { m with
          manual_decision := none
          reviewed_by := none
          reviewed_at := none
          needs_review := true } ∧
        db'.findPick m.pick_id = some { p with
          result := "Pending"
          payout := 0
          graded_at := none }) := by
  refine ⟨?_, ?_, ?_⟩
  · intro h
    unfold revert_match
    rw [h]
  · intro m hm hman
    unfold revert_match
    rw [hm]
    dsimp only
    have : manualDecisionFalsy m.manual_decision = true := by
      rw [hman]
      rfl
    rw [if_pos this]
  · intro m hm s hman hs p hp
    unfold revert_match
    rw [hm]
    dsimp only
    have : manualDecisionFalsy m.manual_decision = false := by
      rw [hman]
      unfold manualDecisionFalsy
      simpa using hs
    rw [if_neg (by simp [this])]
    rw [hp]
    dsimp only
    refine ⟨_, rfl, ?_, ?_⟩
    · show ((db.putDecision _).putPick _).findDecision mid = _
      unfold Db.putPick Db.putDecision Db.findDecision
      exact find?_replace MatchDecision.id db.decisions mid m _
        hm (findDecision_found_id db mid m hm)
    · show ((db.putDecision _).putPick _).findPick m.pick_id = _
      unfold Db.putPick Db.putDecision Db.findPick
      exact find?_replace Pick.id db.picks m.pick_id p _
        hp (findPick_found_id db m.pick_id p hp)

/-- C4 witness: reverting a manually approved decision succeeds and resets
the pick; reverting an auto-accepted (never manually decided) decision
fails. -/
theorem revert_match_spec_witness :
    (∃ db', revert_match
        (Db.mk
          [MatchDecision.mk 2 3 "x".toList (some "y".toList) 0.75 "medium" "" false false
            (some "approved") (some "admin".toList) (some 9) 0]
          [Pick.mk 3 "x".toList 200 1 "W" 2 (some 9)])
        2 = some ((true, "Reverted match back to pending review"), db')) ∧
    revert_match
      (Db.mk
        [MatchDecision.mk 7 3 "x".toList (some "y".toList) 0.9 "high" "" true false
          none none none 0]
        [Pick.mk 3 "x".toList 200 1 "W" 2 (some 9)])
      7 =
      some ((false, "Can only revert manually reviewed matches"),
        Db.mk
          [MatchDecision.mk 7 3 "x".toList (some "y".toList) 0.9 "high" "" true false
            none none none 0]
          [Pick.mk 3 "x".toList 200 1 "W" 2 (some 9)]) := by
  constructor
  · obtain ⟨db', h, _, _⟩ :=
      (revert_match_spec
        (Db.mk
          [MatchDecision.mk 2 3 "x".toList (some "y".toList) 0.75 "medium" "" false false
            (some "approved") (some "admin".toList) (some 9) 0]
          [Pick.mk 3 "x".toList 200 1 "W" 2 (some 9)])
        2).2.2
        (MatchDecision.mk 2 3 "x".toList (some "y".toList) 0.75 "medium" "" false false
          (some "approved") (some "admin".toList) (some 9) 0)
        (by with_unfolding_all decide)
        "approved" rfl (by decide)
        (Pick.mk 3 "x".toList 200 1 "W" 2 (some 9)) (by with_unfolding_all decide)
    exact ⟨db', h⟩
  · exact (revert_match_spec _ 7).2.1
      (MatchDecision.mk 7 3 "x".toList (some "y".toList) 0.9 "high" "" true false
        none none none 0) (by with_unfolding_all decide) rfl
